import Mathlib

/-!
Shallow embedding of the sudoku solver (src/main.rs) and verification of the
specification claims about it.

Modelling conventions:
* `u8`/`u16`/`usize` values are modelled as `Nat`; the masks only ever hold
  values `≤ 0x3FE`, so 16-bit wrap-around never occurs and the bitwise
  operations below coincide with the machine ones on every reachable value.
* The Rust cell buffer `[u8; 81]` is a `List Nat` (all reachable grids have
  length 81; theorems carry the length where it matters).
* The `Vec<usize>` stack is a `List Nat` whose head is the vector's top
  (`push` conses, `pop` takes the head).
* `panic!` is modelled by `Option`: `none` is an aborted computation.
* The two `while`/recursive loops are modelled with an explicit fuel
  parameter; the wrappers instantiate the fuel with `cells.length + 1`,
  which is proved sufficient (each productive step fills an empty cell).
-/

set_option maxRecDepth 100000

structure Grid where
  cells : List Nat
  lines_state : List Nat
  columns_state : List Nat
  solved_indices_stack : List Nat
deriving DecidableEq

inductive PotentialState where
  | Several (count : Nat)
  | One (value : Nat)
  | None
deriving DecidableEq

namespace Grid

def index_of (line column : Nat) : Nat := line * 9 + column

def coordinates_of (index : Nat) : Nat × Nat := (index / 9, index % 9)

/-- `Grid::create`: writes each seed into the flat buffer in order of arrival.
The Rust code indexes `cells[line * 9 + column]` without any validation;
an index `≥ 81` aborts (out-of-bounds), modelled by `none`. -/
def createCells : List (Nat × Nat × Nat) → List Nat → Option (List Nat)
  | [], cells => some cells
  | (value, line, column) :: rest, cells =>
      if index_of line column < 81 then
        createCells rest (cells.set (index_of line column) value)
      else
        none

def create (values : List (Nat × Nat × Nat)) : Option Grid :=
  (createCells values (List.replicate 81 0)).map (fun cells =>
    { cells := cells
      lines_state := List.replicate 9 0
      columns_state := List.replicate 9 0
      solved_indices_stack := [] })

/-- `Grid::interpret_potential`: scans bits 1..9 counting set bits and
remembering the last set bit's index. -/
def interpret_potential (potential : Nat) : PotentialState :=
  let r := (List.range' 1 9).foldl
    (fun (acc : Nat × Nat) i =>
      if potential &&& (1 <<< i) != 0 then (acc.1 + 1, i) else acc)
    (0, 0)
  match r.1 with
  | 0 => PotentialState.None
  | 1 => PotentialState.One r.2
  | _ => PotentialState.Several r.1

/-- Helper for `get_potential_value_at`: the loop over `i in 1..10` carrying
the running ordinal `current_index`. -/
def getPotAux (potential index : Nat) : List Nat → Nat → Nat
  | [], _ => 0
  | i :: rest, current =>
      if potential &&& (1 <<< i) != 0 then
        if current = index then i else getPotAux potential index rest (current + 1)
      else
        getPotAux potential index rest current

/-- `Grid::get_potential_value_at`: the `(index+1)`-th set bit among bits 1..9,
or 0 when there are at most `index` set bits. -/
def get_potential_value_at (potential index : Nat) : Nat :=
  getPotAux potential index (List.range' 1 9) 0

/-- `Grid::any_unsolved_cell`. -/
def any_unsolved_cell (g : Grid) : Bool :=
  g.cells.any (fun cell => cell == 0)

/-- 16-bit complement, as in the Rust `!value_bit` on `u16`. -/
def u16not (b : Nat) : Nat := 0xFFFF ^^^ b

/-- One step of the mask-recomputation fold: clear `0x3FE & (1 << value)` in
the row and column masks of a filled cell. -/
def masksStep (ms : List Nat × List Nat) (iv : Nat × Nat) : List Nat × List Nat :=
  let index := iv.1
  let value := iv.2
  if value > 0 then
    let value_bit := 0x3FE &&& (1 <<< value)
    let line := index / 9
    let column := index % 9
    (ms.1.set line ((ms.1.getD line 0) &&& u16not value_bit),
     ms.2.set column ((ms.2.getD column 0) &&& u16not value_bit))
  else ms

/-- The mask pair computed by `Grid::compute_potentials` from a cell buffer:
start from `0x3FE` everywhere and clear the value bit in the row and column
of every filled cell. -/
def masksOf (cells : List Nat) : List Nat × List Nat :=
  cells.enum.foldl masksStep (List.replicate 9 0x3FE, List.replicate 9 0x3FE)

/-- `Grid::compute_potentials`. -/
def compute_potentials (g : Grid) : Grid :=
  { g with lines_state := (masksOf g.cells).1, columns_state := (masksOf g.cells).2 }

/-- Candidate set of the cell at `index`: `lines_state[line] & columns_state[column]`. -/
def potentialAt (g : Grid) (index : Nat) : Nat :=
  g.lines_state.getD (index / 9) 0 &&& g.columns_state.getD (index % 9) 0

/-- One pass of the scan inside `try_solve_by_constrains`: the first empty
cell whose candidate set classifies as `One` (`some (i, some v)`) or `None`
(`some (i, none)`); `none` when a full scan finds only `Several` cells. -/
def firstAction (g : Grid) : Option (Nat × Option Nat) :=
  (List.range g.cells.length).findSome? (fun index =>
    if g.cells.getD index 0 > 0 then none
    else
      match interpret_potential (potentialAt g index) with
      | PotentialState.One value => some (index, some value)
      | PotentialState.None => some (index, none)
      | PotentialState.Several _ => none)

/-- The forced-cell assignment of the propagation loop: write the value,
push the index, recompute all masks. -/
def constrainsWrite (g : Grid) (index value : Nat) : Grid :=
  compute_potentials
    { g with
      cells := g.cells.set index value
      solved_indices_stack := index :: g.solved_indices_stack }

/-- The `while any_solve && !any_error` loop of `try_solve_by_constrains`.
On a forced cell: write the value, push the index, recompute all masks and
restart the scan.  On a contradiction: stop with `false`.  The fuel-exhausted
branch is unreachable from the wrapper below. -/
def constrainsLoop : Nat → Grid → Bool × Grid
  | 0, g => (false, g)
  | fuel + 1, g =>
      match firstAction g with
      | Option.none => (true, g)
      | Option.some (_, Option.none) => (false, g)
      | Option.some (index, Option.some value) =>
          constrainsLoop fuel (constrainsWrite g index value)

/-- `Grid::try_solve_by_constrains`: returns `(!any_error, newly pushed count)`
together with the updated grid. -/
def try_solve_by_constrains (g : Grid) : Bool × Nat × Grid :=
  let r := constrainsLoop (g.cells.length + 1) g
  (r.1, r.2.solved_indices_stack.length - g.solved_indices_stack.length, r.2)

/-- One pop of `revert_last_resolved_indices`: take the top index off the
stack and zero that cell.  The source unwraps the pop, aborting on an empty
stack; that branch is unreachable at every call site, and is modelled by
`headD 0`. -/
def revertStep (g : Grid) : Grid :=
  let reverted_indices := g.solved_indices_stack.headD 0
  { g with
    cells := g.cells.set reverted_indices 0
    solved_indices_stack := g.solved_indices_stack.tail }

/-- `Grid::revert_last_resolved_indices`: pop `count` indices, zeroing each
popped cell. -/
def revert_last_resolved_indices : Nat → Grid → Grid
  | 0, g => g
  | count + 1, g => revert_last_resolved_indices count (revertStep g)

/-- One step of the minimum-candidate scan of
`Grid::try_find_cell_with_low_potential`: skip filled cells, and remember
an empty `Several` cell exactly when its count is strictly smaller than the
best so far. -/
def tryFindStep (g : Grid) (acc : Nat × Nat × Nat) (index : Nat) : Nat × Nat × Nat :=
  if g.cells.getD index 0 > 0 then acc
  else
    match interpret_potential (potentialAt g index) with
    | PotentialState.Several count =>
        if count < acc.2.2 then (index, potentialAt g index, count) else acc
    | _ => acc

/-- `Grid::try_find_cell_with_low_potential`: row-major scan for the empty
cell with the strictly smallest `Several` count; `(usize::MAX, 0, u8::MAX)`
is the initial accumulator, and the result is `None` when the accumulated
potential is still 0. -/
def try_find_cell_with_low_potential (g : Grid) : Option (Nat × Nat × Nat) :=
  let r := (List.range g.cells.length).foldl (tryFindStep g) (18446744073709551615, 0, 255)
  if r.2.1 = 0 then none else some r

/-- The `for potential_index in 0..potential_count` loop of
`try_solve_recursive`: write the trial value, recompute masks, propagate,
recurse on success (`recur` is the recursive search at the remaining fuel),
and otherwise revert the propagation's pushes, clear the trial cell and
recompute masks before trying the next candidate. -/
def trialLoop (recur : Grid → Bool × Grid) (cell_index potential : Nat) :
    List Nat → Grid → Bool × Grid
  | [], g => (false, g)
  | potential_index :: rest, g =>
      match try_solve_by_constrains (compute_potentials
        { g with
          cells := g.cells.set cell_index
            (get_potential_value_at potential potential_index) }) with
      | (success, number_of_solved_indices, g2) =>
        match (if success then recur g2 else (false, g2)) with
        | (true, g3) => (true, g3)
        | (false, g3) =>
            trialLoop recur cell_index potential rest
              (compute_potentials
                { (revert_last_resolved_indices number_of_solved_indices g3) with
                  cells := (revert_last_resolved_indices
                    number_of_solved_indices g3).cells.set cell_index 0 })

/-- `Grid::try_solve_recursive`, with fuel.  If the grid is complete, succeed;
otherwise branch on the minimum-candidate cell via `trialLoop`. -/
def try_solve_recursive_fuel : Nat → Grid → Bool × Grid
  | 0 => fun g => (false, g)
  | fuel + 1 => fun g =>
      if any_unsolved_cell g = false then (true, g)
      else
        match try_find_cell_with_low_potential g with
        | Option.none => (false, g)
        | Option.some (cell_index, potential, potential_count) =>
            trialLoop (try_solve_recursive_fuel fuel) cell_index potential
              (List.range potential_count) g

/-- `Grid::try_solve_recursive` as called from `solve`; the fuel
`cells.length + 1` dominates the number of empty cells, which bounds the
recursion depth. -/
def try_solve_recursive (g : Grid) : Bool × Grid :=
  try_solve_recursive_fuel (g.cells.length + 1) g

/-- `Grid::solve`: recompute masks, propagate once (aborting on contradiction,
modelled by `none`), then run the recursive search *discarding its boolean
result*, exactly as the source does. -/
def solve (g : Grid) : Option Grid :=
  let g1 := compute_potentials g
  let r := try_solve_by_constrains g1
  if r.1 = false then none
  else some (try_solve_recursive r.2.2).2

/-! ### Candidate-set helpers: the digit list of a mask -/

/-- The ascending list of digits 1..9 whose bit is set in `potential`; both
`interpret_potential` and `get_potential_value_at` scan exactly these bits. -/
def digits (potential : Nat) : List Nat :=
  (List.range' 1 9).filter (fun i => potential &&& (1 <<< i) != 0)

/-- The number of set bits among bits 1..9 of `m`, stated with `testBit`
(the specification's popcount). -/
def popcount9 (m : Nat) : Nat :=
  ((List.range' 1 9).filter (fun i => m.testBit i)).length

lemma and_one_shiftLeft_ne_zero (m i : Nat) :
    (m &&& (1 <<< i) != 0) = m.testBit i := by
  rw [Nat.one_shiftLeft, Nat.and_two_pow]
  cases h : m.testBit i
  · simp
  · simp only [Bool.toNat_true, Nat.one_mul, bne_iff_ne, ne_eq]
    exact (Nat.two_pow_pos i).ne'

lemma digits_eq_testBit_filter (m : Nat) :
    digits m = (List.range' 1 9).filter (fun i => m.testBit i) := by
  unfold digits
  congr 1
  funext i
  exact and_one_shiftLeft_ne_zero m i

lemma popcount9_eq_length_digits (m : Nat) : popcount9 m = (digits m).length := by
  rw [digits_eq_testBit_filter]; rfl

lemma getPotAux_eq (m k : Nat) :
    ∀ (l : List Nat) (cur : Nat), cur ≤ k →
      getPotAux m k l cur = (l.filter (fun i => m &&& (1 <<< i) != 0)).getD (k - cur) 0
  | [], cur, _ => by simp [getPotAux]
  | i :: rest, cur, hck => by
    unfold getPotAux
    rw [List.filter_cons]
    by_cases hb : (m &&& (1 <<< i) != 0) = true
    · rw [if_pos hb, if_pos hb]
      by_cases hek : cur = k
      · rw [if_pos hek]
        simp [hek]
      · rw [if_neg hek]
        have hlt : cur < k := lt_of_le_of_ne hck hek
        rw [getPotAux_eq m k rest (cur + 1) hlt]
        have hsub : k - cur = (k - (cur + 1)) + 1 := by omega
        rw [hsub, List.getD_cons_succ]
    · rw [if_neg hb, if_neg hb, getPotAux_eq m k rest cur hck]

lemma get_potential_value_at_eq (m k : Nat) :
    get_potential_value_at m k = (digits m).getD k 0 := by
  unfold get_potential_value_at digits
  rw [getPotAux_eq m k _ 0 (Nat.zero_le k), Nat.sub_zero]

lemma interpret_foldl (m : Nat) :
    ∀ (l : List Nat) (c lv : Nat),
      l.foldl (fun (acc : Nat × Nat) i =>
        if m &&& (1 <<< i) != 0 then (acc.1 + 1, i) else acc) (c, lv)
      = (c + (l.filter (fun i => m &&& (1 <<< i) != 0)).length,
         (l.filter (fun i => m &&& (1 <<< i) != 0)).getLastD lv)
  | [], c, lv => by simp
  | i :: rest, c, lv => by
    rw [List.foldl_cons, List.filter_cons]
    by_cases hb : (m &&& (1 <<< i) != 0) = true
    · rw [if_pos hb, if_pos hb, interpret_foldl m rest (c + 1) i,
        List.getLastD_cons, List.length_cons]
      refine Prod.ext ?_ rfl
      simp only
      omega
    · rw [if_neg hb, if_neg hb, interpret_foldl m rest c lv]

lemma interpret_potential_eq (m : Nat) :
    interpret_potential m =
      match (digits m).length with
      | 0 => PotentialState.None
      | 1 => PotentialState.One ((digits m).getLastD 0)
      | _ => PotentialState.Several (digits m).length := by
  unfold interpret_potential digits
  rw [interpret_foldl m _ 0 0]
  simp

lemma interpret_several (m c : Nat)
    (h : interpret_potential m = PotentialState.Several c) :
    c = (digits m).length ∧ 2 ≤ c := by
  rw [interpret_potential_eq] at h
  rcases hl : (digits m).length with _ | _ | n
  · rw [hl] at h; exact absurd h (by simp)
  · rw [hl] at h; exact absurd h (by simp)
  · rw [hl] at h
    simp only [PotentialState.Several.injEq] at h
    omega

lemma interpret_one (m v : Nat)
    (h : interpret_potential m = PotentialState.One v) :
    digits m = [v] := by
  rw [interpret_potential_eq] at h
  rcases hl : (digits m).length with _ | _ | n
  · rw [hl] at h; exact absurd h (by simp)
  · rw [hl] at h
    simp only [PotentialState.One.injEq] at h
    rcases hd : digits m with _ | ⟨a, _ | ⟨b, t⟩⟩
    · rw [hd] at hl; simp at hl
    · rw [hd] at h; simp at h; rw [h]
    · rw [hd] at hl; simp at hl
  · rw [hl] at h; exact absurd h (by simp)

lemma interpret_none (m : Nat)
    (h : interpret_potential m = PotentialState.None) :
    digits m = [] := by
  rw [interpret_potential_eq] at h
  rcases hl : (digits m).length with _ | _ | n
  · exact List.eq_nil_of_length_eq_zero hl
  · rw [hl] at h; exact absurd h (by simp)
  · rw [hl] at h; exact absurd h (by simp)

lemma interpret_none_of_digits_nil (m : Nat) (h : digits m = []) :
    interpret_potential m = PotentialState.None := by
  rw [interpret_potential_eq, h]
  rfl

lemma digits_pairwise (m : Nat) : (digits m).Pairwise (· < ·) :=
  (List.pairwise_lt_range' 1 9).filter _

lemma mem_digits (m v : Nat) :
    v ∈ digits m ↔ (1 ≤ v ∧ v ≤ 9 ∧ m &&& (1 <<< v) ≠ 0) := by
  unfold digits
  rw [List.mem_filter, List.mem_range'_1]
  simp only [bne_iff_ne, ne_eq]
  omega

lemma mem_digits_testBit (m v : Nat) (h : v ∈ digits m) : m.testBit v = true := by
  have hne := ((mem_digits m v).1 h).2.2
  rw [← and_one_shiftLeft_ne_zero]
  exact bne_iff_ne.2 hne

lemma digits_getD_mem (m k : Nat) (hk : k < (digits m).length) :
    (digits m).getD k 0 ∈ digits m := by
  rw [List.getD_eq_getElem?_getD, List.getElem?_eq_getElem hk]
  exact List.getElem_mem hk

/-- Strict ascent of ordinal selection over the digit list. -/
lemma digits_getD_strict_mono (m k1 k2 : Nat) (h12 : k1 < k2)
    (h2 : k2 < (digits m).length) :
    (digits m).getD k1 0 < (digits m).getD k2 0 := by
  have h1 : k1 < (digits m).length := lt_trans h12 h2
  rw [List.getD_eq_getElem?_getD, List.getElem?_eq_getElem h1,
      List.getD_eq_getElem?_getD, List.getElem?_eq_getElem h2]
  exact List.pairwise_iff_getElem.mp (digits_pairwise m) k1 k2 h1 h2 h12

/-! ### Small `List.getD`/`List.set` helpers -/

lemma getD_set_eq_of_lt (l : List Nat) (i a : Nat) (h : i < l.length) :
    (l.set i a).getD i 0 = a := by
  rw [List.getD_eq_getElem?_getD, List.getElem?_set_self h]
  rfl

lemma getD_set_ne (l : List Nat) (i j a : Nat) (h : i ≠ j) :
    (l.set i a).getD j 0 = l.getD j 0 := by
  rw [List.getD_eq_getElem?_getD, List.getElem?_set_ne h, ← List.getD_eq_getElem?_getD]

lemma getD_eq_zero_of_le (l : List Nat) (r : Nat) (h : l.length ≤ r) :
    l.getD r 0 = 0 := by
  rw [List.getD_eq_getElem?_getD, List.getElem?_eq_none h]
  rfl

lemma getD_replicate_3FE (j : Nat) :
    (List.replicate 9 0x3FE).getD j 0 = if j < 9 then 0x3FE else 0 := by
  rw [List.getD_eq_getElem?_getD, List.getElem?_replicate]
  by_cases h : j < 9 <;> simp [h]

lemma getD_eq_getElem_of_lt (l : List Nat) (i : Nat) (h : i < l.length) :
    l.getD i 0 = l[i] := by
  rw [List.getD_eq_getElem?_getD, List.getElem?_eq_getElem h]
  rfl

/-! ### Mask recomputation: cleared bits, bounds, monotonicity -/

lemma set_and_testBit_mono (l : List Nat) (s w r b : Nat)
    (h : Nat.testBit (l.getD r 0) b = false) :
    Nat.testBit ((l.set s ((l.getD s 0) &&& w)).getD r 0) b = false := by
  by_cases hsr : s = r
  · subst hsr
    by_cases hlen : s < l.length
    · rw [getD_set_eq_of_lt _ _ _ hlen, Nat.testBit_land, h, Bool.false_and]
    · rw [List.set_eq_of_length_le (Nat.le_of_not_lt hlen)]
      exact h
  · rw [getD_set_ne _ _ _ _ hsr]
    exact h

lemma masksStep_testBit_mono (ms : List Nat × List Nat) (iv : Nat × Nat) (r c b : Nat)
    (h1 : Nat.testBit (ms.1.getD r 0) b = false)
    (h2 : Nat.testBit (ms.2.getD c 0) b = false) :
    Nat.testBit ((masksStep ms iv).1.getD r 0) b = false ∧
    Nat.testBit ((masksStep ms iv).2.getD c 0) b = false := by
  unfold masksStep
  by_cases hv : iv.2 > 0
  · rw [if_pos hv]
    exact ⟨set_and_testBit_mono _ _ _ _ _ h1, set_and_testBit_mono _ _ _ _ _ h2⟩
  · rw [if_neg hv]
    exact ⟨h1, h2⟩

lemma foldl_masksStep_testBit_mono :
    ∀ (l : List (Nat × Nat)) (ms : List Nat × List Nat) (r c b : Nat),
      Nat.testBit (ms.1.getD r 0) b = false →
      Nat.testBit (ms.2.getD c 0) b = false →
      Nat.testBit ((l.foldl masksStep ms).1.getD r 0) b = false ∧
      Nat.testBit ((l.foldl masksStep ms).2.getD c 0) b = false
  | [], _, _, _, _, h1, h2 => ⟨h1, h2⟩
  | iv :: rest, ms, r, c, b, h1, h2 => by
    rw [List.foldl_cons]
    have hs := masksStep_testBit_mono ms iv r c b h1 h2
    exact foldl_masksStep_testBit_mono rest _ r c b hs.1 hs.2

def MasksBounded (ms : List Nat × List Nat) : Prop :=
  (∀ r, ms.1.getD r 0 ≤ 0x3FE) ∧ (∀ c, ms.2.getD c 0 ≤ 0x3FE)

lemma set_and_getD_le (l : List Nat) (s w r : Nat) (h : ∀ r', l.getD r' 0 ≤ 0x3FE) :
    (l.set s ((l.getD s 0) &&& w)).getD r 0 ≤ 0x3FE := by
  by_cases hsr : s = r
  · subst hsr
    by_cases hlen : s < l.length
    · rw [getD_set_eq_of_lt _ _ _ hlen]
      exact le_trans Nat.and_le_left (h s)
    · rw [List.set_eq_of_length_le (Nat.le_of_not_lt hlen)]
      exact h s
  · rw [getD_set_ne _ _ _ _ hsr]
    exact h r

lemma masksStep_bounded (ms : List Nat × List Nat) (iv : Nat × Nat)
    (h : MasksBounded ms) : MasksBounded (masksStep ms iv) := by
  unfold masksStep
  by_cases hv : iv.2 > 0
  · rw [if_pos hv]
    exact ⟨fun r => set_and_getD_le _ _ _ _ h.1, fun c => set_and_getD_le _ _ _ _ h.2⟩
  · rw [if_neg hv]
    exact h

lemma foldl_masksStep_bounded :
    ∀ (l : List (Nat × Nat)) (ms : List Nat × List Nat),
      MasksBounded ms → MasksBounded (l.foldl masksStep ms)
  | [], _, h => h
  | iv :: rest, ms, h => by
    rw [List.foldl_cons]
    exact foldl_masksStep_bounded rest _ (masksStep_bounded ms iv h)

lemma replicate_3FE_bounded :
    MasksBounded (List.replicate 9 0x3FE, List.replicate 9 0x3FE) := by
  constructor <;> intro r <;> rw [getD_replicate_3FE] <;> by_cases h : r < 9 <;> simp [h]

lemma masksStep_length (ms : List Nat × List Nat) (iv : Nat × Nat) :
    (masksStep ms iv).1.length = ms.1.length ∧ (masksStep ms iv).2.length = ms.2.length := by
  unfold masksStep
  by_cases hv : iv.2 > 0
  · rw [if_pos hv]
    exact ⟨List.length_set .., List.length_set ..⟩
  · rw [if_neg hv]
    exact ⟨rfl, rfl⟩

lemma foldl_masksStep_length :
    ∀ (l : List (Nat × Nat)) (ms : List Nat × List Nat),
      (l.foldl masksStep ms).1.length = ms.1.length ∧
      (l.foldl masksStep ms).2.length = ms.2.length
  | [], _ => ⟨rfl, rfl⟩
  | iv :: rest, ms => by
    rw [List.foldl_cons]
    have h1 := masksStep_length ms iv
    have h2 := foldl_masksStep_length rest (masksStep ms iv)
    exact ⟨h1.1 ▸ h2.1, h1.2 ▸ h2.2⟩

lemma masksOf_length (cells : List Nat) :
    (masksOf cells).1.length = 9 ∧ (masksOf cells).2.length = 9 := by
  unfold masksOf
  have := foldl_masksStep_length cells.enum (List.replicate 9 0x3FE, List.replicate 9 0x3FE)
  simpa using this

lemma masksOf_bounded (cells : List Nat) : MasksBounded (masksOf cells) :=
  foldl_masksStep_bounded _ _ replicate_3FE_bounded

/-- For a digit 1..9, the complement mask used by the step has that digit's
bit clear, so ANDing with it clears the bit. -/
lemma testBit_u16not_value_bit (v : Nat) (h1 : 1 ≤ v) (h9 : v ≤ 9) :
    Nat.testBit (u16not (0x3FE &&& (1 <<< v))) v = false := by
  unfold u16not
  rw [Nat.testBit_xor, Nat.testBit_land, Nat.one_shiftLeft]
  have h16 : Nat.testBit 0xFFFF v = true := by
    have : (0xFFFF : Nat) = 2 ^ 16 - 1 := by norm_num
    rw [this, Nat.testBit_two_pow_sub_one]
    simp
    omega
  have h3FE : Nat.testBit 0x3FE v = true := by
    interval_cases v <;> decide
  rw [h16, h3FE, Nat.testBit_two_pow_self]
  rfl

/-- After processing a filled cell `(index, value)`, bit `value` of the
row mask `index / 9` and the column mask `index % 9` is clear. -/
lemma masksStep_clears (ms : List Nat × List Nat) (index value : Nat)
    (hlen1 : ms.1.length = 9) (hlen2 : ms.2.length = 9)
    (hbd : MasksBounded ms) (hv : 0 < value) :
    Nat.testBit ((masksStep ms (index, value)).1.getD (index / 9) 0) value = false ∧
    Nat.testBit ((masksStep ms (index, value)).2.getD (index % 9) 0) value = false := by
  by_cases h9 : value ≤ 9
  · unfold masksStep
    rw [if_pos hv]
    constructor
    · by_cases hr : index / 9 < 9
      · rw [getD_set_eq_of_lt _ _ _ (by rw [hlen1]; exact hr), Nat.testBit_land,
          testBit_u16not_value_bit value hv h9, Bool.and_false]
      · rw [List.getD_eq_getElem?_getD,
          List.getElem?_eq_none (l := (ms.1.set _ _)) (by simp [hlen1]; omega)]
        simp
    · have hc : index % 9 < 9 := Nat.mod_lt _ (by omega)
      rw [getD_set_eq_of_lt _ _ _ (by rw [hlen2]; exact hc), Nat.testBit_land,
        testBit_u16not_value_bit value hv h9, Bool.and_false]
  · -- value ≥ 10: every mask entry stays ≤ 0x3FE < 2 ^ value, so the bit is 0
    have hbd' := masksStep_bounded ms (index, value) hbd
    have hlt : ∀ x : Nat, x ≤ 0x3FE → Nat.testBit x value = false := by
      intro x hx
      apply Nat.testBit_lt_two_pow
      calc x ≤ 0x3FE := hx
        _ < 2 ^ 10 := by norm_num
        _ ≤ 2 ^ value := Nat.pow_le_pow_right (by omega) (by omega)
    exact ⟨hlt _ (hbd'.1 _), hlt _ (hbd'.2 _)⟩

/-- The central mask-recomputation property: after `compute_potentials`, the
value bit of every filled cell is clear in its row mask and column mask. -/
lemma masksOf_cleared (cells : List Nat) (i : Nat) (hi : i < cells.length)
    (hv : 0 < cells.getD i 0) :
    Nat.testBit ((masksOf cells).1.getD (i / 9) 0) (cells.getD i 0) = false ∧
    Nat.testBit ((masksOf cells).2.getD (i % 9) 0) (cells.getD i 0) = false := by
  have hilen : i < cells.enum.length := by simpa using hi
  have hdrop : cells.enum.drop i = (i, cells[i]) :: cells.enum.drop (i + 1) := by
    rw [List.drop_eq_getElem_cons hilen, List.getElem_enum]
  have hsplit : cells.enum =
      cells.enum.take i ++ (i, cells[i]) :: cells.enum.drop (i + 1) := by
    conv_lhs => rw [← List.take_append_drop i cells.enum]
    rw [hdrop]
  have hgd : cells.getD i 0 = cells[i] := getD_eq_getElem_of_lt cells i hi
  unfold masksOf
  rw [hsplit, List.foldl_append, List.foldl_cons]
  have hpre := foldl_masksStep_length (cells.enum.take i)
    (List.replicate 9 0x3FE, List.replicate 9 0x3FE)
  have hbd := foldl_masksStep_bounded (cells.enum.take i) _ replicate_3FE_bounded
  have hstep := masksStep_clears _ i cells[i]
    (by rw [hpre.1]; simp) (by rw [hpre.2]; simp) hbd (by rw [hgd] at hv; exact hv)
  rw [hgd]
  exact foldl_masksStep_testBit_mono _ _ _ _ _ hstep.1 hstep.2

/-- Bit 0 of every recomputed mask is clear. -/
lemma masksOf_bit0 (cells : List Nat) (j : Nat) :
    Nat.testBit ((masksOf cells).1.getD j 0) 0 = false ∧
    Nat.testBit ((masksOf cells).2.getD j 0) 0 = false := by
  unfold masksOf
  refine foldl_masksStep_testBit_mono _ _ _ _ _ ?_ ?_ <;>
    · rw [getD_replicate_3FE]
      by_cases h : j < 9 <;> simp [h]

/-! ### Grid-level predicates -/

/-- A cell buffer is valid when it has the 81 cells of the Rust array, every
value is a digit 0..9, and no nonzero value repeats inside a row or column. -/
def ValidCells (c : List Nat) : Prop :=
  c.length = 81 ∧
  (∀ i, i < 81 → c.getD i 0 ≤ 9) ∧
  (∀ i, i < 81 → ∀ j, j < 81 → (i ≠ j ∧ (i / 9 = j / 9 ∨ i % 9 = j % 9)) →
    (c.getD i 0 = 0 ∨ c.getD i 0 ≠ c.getD j 0))

instance : DecidablePred ValidCells := fun c => by
  unfold ValidCells
  infer_instance

/-- The masks agree with a fresh recomputation from the cells; established by
every call to `compute_potentials` and intact whenever the code reads them. -/
def MasksOk (g : Grid) : Prop :=
  g.lines_state = (masksOf g.cells).1 ∧ g.columns_state = (masksOf g.cells).2

/-- Every one of the 81 cells is filled. -/
def Complete (c : List Nat) : Prop := ∀ i, i < 81 → c.getD i 0 ≠ 0

lemma masksOk_compute (g : Grid) : MasksOk (compute_potentials g) := ⟨rfl, rfl⟩

lemma getD_set_cases (c : List Nat) (i v a : Nat) (hi : i < c.length) :
    (c.set i v).getD a 0 = if a = i then v else c.getD a 0 := by
  by_cases h : a = i
  · subst h
    rw [if_pos rfl, getD_set_eq_of_lt _ _ _ hi]
  · rw [if_neg h, getD_set_ne _ _ _ _ (fun he => h he.symm)]

/-- Writing a fresh digit 1..9 into an empty cell preserves validity. -/
lemma validCells_set (c : List Nat) (i v : Nat) (hv : ValidCells c) (hi : i < 81)
    (h1 : 1 ≤ v) (h9 : v ≤ 9)
    (hrow : ∀ j, j < 81 → j ≠ i → j / 9 = i / 9 → c.getD j 0 ≠ v)
    (hcol : ∀ j, j < 81 → j ≠ i → j % 9 = i % 9 → c.getD j 0 ≠ v) :
    ValidCells (c.set i v) := by
  obtain ⟨hlen, hbound, hdist⟩ := hv
  have hi' : i < c.length := by omega
  refine ⟨by simp [hlen], ?_, ?_⟩
  · intro a ha
    rw [getD_set_cases c i v a hi']
    by_cases h : a = i
    · rw [if_pos h]; exact h9
    · rw [if_neg h]; exact hbound a ha
  · intro a ha b hb hpair
    obtain ⟨hab, hsame⟩ := hpair
    rw [getD_set_cases c i v a hi', getD_set_cases c i v b hi']
    by_cases hA : a = i <;> by_cases hB : b = i
    · exact absurd (hA.trans hB.symm) hab
    · rw [if_pos hA, if_neg hB]
      refine Or.inr fun hEq => ?_
      subst hA
      rcases hsame with hr | hc
      exacts [hrow b hb hB hr.symm hEq.symm, hcol b hb hB hc.symm hEq.symm]
    · rw [if_neg hA, if_pos hB]
      refine Or.inr fun hEq => ?_
      subst hB
      rcases hsame with hr | hc
      exacts [hrow a ha hA hr hEq, hcol a ha hA hc hEq]
    · rw [if_neg hA, if_neg hB]
      exact hdist a ha b hb ⟨hab, hsame⟩

/-- A bit set in a cell's candidate mask means its digit occurs nowhere else
in that cell's row or column. -/
lemma potential_fresh (g : Grid) (i v : Nat) (hmo : MasksOk g) (hv1 : 1 ≤ v)
    (htb : Nat.testBit (potentialAt g i) v = true) :
    (∀ j, j < g.cells.length → j / 9 = i / 9 → g.cells.getD j 0 ≠ v) ∧
    (∀ j, j < g.cells.length → j % 9 = i % 9 → g.cells.getD j 0 ≠ v) := by
  unfold potentialAt at htb
  rw [hmo.1, hmo.2, Nat.testBit_land, Bool.and_eq_true] at htb
  obtain ⟨hline, hcolb⟩ := htb
  constructor
  · intro j hj hjr hveq
    have hcl := (masksOf_cleared g.cells j hj (by omega)).1
    rw [hveq, hjr] at hcl
    rw [hcl] at hline
    exact Bool.false_ne_true hline
  · intro j hj hjc hveq
    have hcl := (masksOf_cleared g.cells j hj (by omega)).2
    rw [hveq, hjc] at hcl
    rw [hcl] at hcolb
    exact Bool.false_ne_true hcolb

/-! ### Characterizing one scan of the propagation loop -/

lemma firstAction_some_one (g : Grid) (i v : Nat)
    (h : firstAction g = some (i, some v)) :
    i < g.cells.length ∧ g.cells.getD i 0 = 0 ∧
    interpret_potential (potentialAt g i) = PotentialState.One v := by
  obtain ⟨a, ha, hfa⟩ := List.exists_of_findSome?_eq_some h
  have halen : a < g.cells.length := List.mem_range.1 ha
  by_cases hc : g.cells.getD a 0 > 0
  · rw [if_pos hc] at hfa
    exact absurd hfa (by simp)
  · rw [if_neg hc] at hfa
    rcases hm : interpret_potential (potentialAt g a) with cnt | w
    · rw [hm] at hfa
      exact absurd hfa (by simp)
    · rw [hm] at hfa
      simp only [Option.some.injEq, Prod.mk.injEq] at hfa
      obtain ⟨hai, hwv⟩ := hfa
      subst hai
      subst hwv
      exact ⟨halen, by omega, hm⟩
    · rw [hm] at hfa
      simp only [Option.some.injEq, Prod.mk.injEq] at hfa
      exact absurd hfa.2 (by simp)

lemma firstAction_some_contra (g : Grid) (i : Nat)
    (h : firstAction g = some (i, none)) :
    i < g.cells.length ∧ g.cells.getD i 0 = 0 ∧
    interpret_potential (potentialAt g i) = PotentialState.None := by
  obtain ⟨a, ha, hfa⟩ := List.exists_of_findSome?_eq_some h
  have halen : a < g.cells.length := List.mem_range.1 ha
  by_cases hc : g.cells.getD a 0 > 0
  · rw [if_pos hc] at hfa
    exact absurd hfa (by simp)
  · rw [if_neg hc] at hfa
    rcases hm : interpret_potential (potentialAt g a) with cnt | w
    · rw [hm] at hfa
      exact absurd hfa (by simp)
    · rw [hm] at hfa
      simp only [Option.some.injEq, Prod.mk.injEq] at hfa
      exact absurd hfa.2 (by simp)
    · rw [hm] at hfa
      simp only [Option.some.injEq, Prod.mk.injEq] at hfa
      obtain ⟨hai, _⟩ := hfa
      subst hai
      exact ⟨halen, by omega, hm⟩

lemma firstAction_none (g : Grid) (h : firstAction g = none) :
    ∀ i, i < g.cells.length → g.cells.getD i 0 = 0 →
      ∃ c, interpret_potential (potentialAt g i) = PotentialState.Several c := by
  intro i hi h0
  have hfa := List.findSome?_eq_none_iff.1 h i (List.mem_range.2 hi)
  rw [if_neg (by omega)] at hfa
  rcases hm : interpret_potential (potentialAt g i) with cnt | w
  · exact ⟨cnt, rfl⟩
  · rw [hm] at hfa
    exact absurd hfa (by simp)
  · rw [hm] at hfa
    exact absurd hfa (by simp)

/-! ### Revert helpers -/

lemma set_getD_zero_eq : ∀ (c : List Nat) (i : Nat), c.getD i 0 = 0 → c.set i 0 = c
  | [], _, _ => rfl
  | x :: t, 0, h => by
    rw [List.getD_cons_zero] at h
    rw [List.set_cons_zero, h]
  | x :: t, i + 1, h => by
    rw [List.getD_cons_succ] at h
    rw [List.set_cons_succ, set_getD_zero_eq t i h]

lemma revert_succ (n : Nat) (g : Grid) :
    revert_last_resolved_indices (n + 1) g =
      revert_last_resolved_indices n (revertStep g) := rfl

lemma revert_add (m : Nat) :
    ∀ (n : Nat) (g : Grid), revert_last_resolved_indices (n + m) g =
      revert_last_resolved_indices m (revert_last_resolved_indices n g)
  | 0, g => by rw [Nat.zero_add]; rfl
  | n + 1, g => by
    have harith : n + 1 + m = (n + m) + 1 := by omega
    rw [harith, revert_succ (n + m) g, revert_succ n g]
    exact revert_add m n (revertStep g)

lemma revert_congr :
    ∀ (n : Nat) (x y : Grid), x.cells = y.cells →
      x.solved_indices_stack = y.solved_indices_stack →
      (revert_last_resolved_indices n x).cells = (revert_last_resolved_indices n y).cells ∧
      (revert_last_resolved_indices n x).solved_indices_stack =
        (revert_last_resolved_indices n y).solved_indices_stack
  | 0, _, _, hc, hs => ⟨hc, hs⟩
  | n + 1, x, y, hc, hs => by
    rw [revert_succ, revert_succ]
    exact revert_congr n _ _ (by unfold revertStep; rw [hc, hs]) (by unfold revertStep; rw [hs])

/-! ### The propagation loop: frame, fixed point, validity -/

lemma constrainsWrite_cells (g : Grid) (i v : Nat) :
    (constrainsWrite g i v).cells = g.cells.set i v := rfl

lemma constrainsWrite_stack (g : Grid) (i v : Nat) :
    (constrainsWrite g i v).solved_indices_stack = i :: g.solved_indices_stack := rfl

lemma constrainsLoop_unfold_none (fuel : Nat) (g : Grid) (h : firstAction g = none) :
    constrainsLoop (fuel + 1) g = (true, g) := by
  unfold constrainsLoop
  rw [h]

lemma constrainsLoop_unfold_contra (fuel : Nat) (g : Grid) (i : Nat)
    (h : firstAction g = some (i, none)) :
    constrainsLoop (fuel + 1) g = (false, g) := by
  unfold constrainsLoop
  rw [h]

lemma constrainsLoop_unfold_write (fuel : Nat) (g : Grid) (i v : Nat)
    (h : firstAction g = some (i, some v)) :
    constrainsLoop (fuel + 1) g = constrainsLoop fuel (constrainsWrite g i v) := by
  conv_lhs => unfold constrainsLoop
  rw [h]

/-- Frame property of propagation: the stack grows by exactly the pushed
indices, and reverting that many pops restores the cell buffer and stack. -/
lemma constrainsLoop_frame :
    ∀ (fuel : Nat) (g : Grid),
      ∃ pushed : List Nat,
        (constrainsLoop fuel g).2.solved_indices_stack =
          pushed ++ g.solved_indices_stack ∧
        (revert_last_resolved_indices pushed.length (constrainsLoop fuel g).2).cells
          = g.cells ∧
        (revert_last_resolved_indices pushed.length
            (constrainsLoop fuel g).2).solved_indices_stack
          = g.solved_indices_stack ∧
        (constrainsLoop fuel g).2.cells.length = g.cells.length
  | 0, g => ⟨[], rfl, rfl, rfl, rfl⟩
  | fuel + 1, g => by
    rcases hfa : firstAction g with _ | ⟨i, _ | v⟩
    · rw [constrainsLoop_unfold_none fuel g hfa]
      exact ⟨[], rfl, rfl, rfl, rfl⟩
    · rw [constrainsLoop_unfold_contra fuel g i hfa]
      exact ⟨[], rfl, rfl, rfl, rfl⟩
    · rw [constrainsLoop_unfold_write fuel g i v hfa]
      obtain ⟨hi, h0, _⟩ := firstAction_some_one g i v hfa
      obtain ⟨pushed, hstk, hrc, hrs, hlen⟩ :=
        constrainsLoop_frame fuel (constrainsWrite g i v)
      refine ⟨pushed ++ [i], ?_, ?_, ?_, ?_⟩
      · rw [hstk, constrainsWrite_stack, List.append_assoc, List.singleton_append]
      · rw [List.length_append, List.length_singleton, revert_add 1 pushed.length]
        set X := revert_last_resolved_indices pushed.length
          (constrainsLoop fuel (constrainsWrite g i v)).2 with hX
        show X.cells.set (X.solved_indices_stack.headD 0) 0 = g.cells
        rw [hrc, hrs, constrainsWrite_cells, constrainsWrite_stack, List.headD_cons,
          List.set_set, set_getD_zero_eq g.cells i h0]
      · rw [List.length_append, List.length_singleton, revert_add 1 pushed.length]
        set X := revert_last_resolved_indices pushed.length
          (constrainsLoop fuel (constrainsWrite g i v)).2 with hX
        show X.solved_indices_stack.tail = g.solved_indices_stack
        rw [hrs, constrainsWrite_stack, List.tail_cons]
      · rw [hlen, constrainsWrite_cells, List.length_set]

lemma count_zero_set_lt :
    ∀ (c : List Nat) (i v : Nat), i < c.length → c.getD i 0 = 0 → v ≠ 0 →
      (c.set i v).count 0 < c.count 0
  | [], i, _, hi, _, _ => by simp at hi
  | x :: t, 0, v, _, h0, hv => by
    rw [List.getD_cons_zero] at h0
    subst h0
    rw [List.set_cons_zero, List.count_cons, List.count_cons]
    simp [hv]
  | x :: t, i + 1, v, hi, h0, hv => by
    rw [List.getD_cons_succ] at h0
    rw [List.set_cons_succ, List.count_cons, List.count_cons]
    have hlt := count_zero_set_lt t i v (by simpa using hi) h0 hv
    omega

/-- A `true` result of the propagation loop means the final state is a fixed
point: a full scan makes no assignment and finds no contradiction. -/
lemma constrainsLoop_true_fix :
    ∀ (fuel : Nat) (g : Grid), (constrainsLoop fuel g).1 = true →
      firstAction (constrainsLoop fuel g).2 = none
  | 0, g, h => absurd h (by simp [constrainsLoop])
  | fuel + 1, g, h => by
    rcases hfa : firstAction g with _ | ⟨i, _ | v⟩
    · rw [constrainsLoop_unfold_none fuel g hfa]
      exact hfa
    · rw [constrainsLoop_unfold_contra fuel g i hfa] at h
      exact absurd h (by simp)
    · rw [constrainsLoop_unfold_write fuel g i v hfa] at h ⊢
      exact constrainsLoop_true_fix fuel _ h

lemma one_value_bounds (g : Grid) (i v : Nat)
    (hone : interpret_potential (potentialAt g i) = PotentialState.One v) :
    1 ≤ v ∧ v ≤ 9 ∧ Nat.testBit (potentialAt g i) v = true := by
  have hd := interpret_one _ _ hone
  have hmem : v ∈ digits (potentialAt g i) := by
    rw [hd]
    exact List.mem_singleton_self v
  obtain ⟨h1, h9, _⟩ := (mem_digits _ _).1 hmem
  exact ⟨h1, h9, mem_digits_testBit _ _ hmem⟩

/-- A `false` result with sufficient fuel means a contradiction was found:
some empty cell of the final state has an empty candidate set. -/
lemma constrainsLoop_false_char :
    ∀ (fuel : Nat) (g : Grid), g.cells.count 0 < fuel →
      (constrainsLoop fuel g).1 = false →
      ∃ i, i < (constrainsLoop fuel g).2.cells.length ∧
        (constrainsLoop fuel g).2.cells.getD i 0 = 0 ∧
        interpret_potential (potentialAt (constrainsLoop fuel g).2 i) =
          PotentialState.None
  | 0, _, hf, _ => absurd hf (by omega)
  | fuel + 1, g, hf, h => by
    rcases hfa : firstAction g with _ | ⟨i, _ | v⟩
    · rw [constrainsLoop_unfold_none fuel g hfa] at h
      exact absurd h (by simp)
    · rw [constrainsLoop_unfold_contra fuel g i hfa]
      obtain ⟨hi, h0, hnone⟩ := firstAction_some_contra g i hfa
      exact ⟨i, hi, h0, hnone⟩
    · rw [constrainsLoop_unfold_write fuel g i v hfa] at h ⊢
      obtain ⟨hi, h0, hone⟩ := firstAction_some_one g i v hfa
      obtain ⟨hv1, _, _⟩ := one_value_bounds g i v hone
      have hcnt : (constrainsWrite g i v).cells.count 0 < fuel := by
        rw [constrainsWrite_cells]
        have hlt := count_zero_set_lt g.cells i v hi h0 (by omega)
        omega
      exact constrainsLoop_false_char fuel _ hcnt h

/-- Propagation preserves mask consistency and cell-buffer validity. -/
lemma constrainsLoop_valid :
    ∀ (fuel : Nat) (g : Grid), MasksOk g → ValidCells g.cells →
      MasksOk (constrainsLoop fuel g).2 ∧ ValidCells (constrainsLoop fuel g).2.cells
  | 0, _, hm, hv => ⟨hm, hv⟩
  | fuel + 1, g, hm, hv => by
    rcases hfa : firstAction g with _ | ⟨i, _ | v⟩
    · rw [constrainsLoop_unfold_none fuel g hfa]
      exact ⟨hm, hv⟩
    · rw [constrainsLoop_unfold_contra fuel g i hfa]
      exact ⟨hm, hv⟩
    · rw [constrainsLoop_unfold_write fuel g i v hfa]
      obtain ⟨hi, h0, hone⟩ := firstAction_some_one g i v hfa
      obtain ⟨hv1, hv9, htb⟩ := one_value_bounds g i v hone
      have hfresh := potential_fresh g i v hm hv1 htb
      have hlen81 : g.cells.length = 81 := hv.1
      have hvalid' : ValidCells (g.cells.set i v) := by
        apply validCells_set g.cells i v hv (by omega) hv1 hv9
        · intro j hj _ hjr
          exact hfresh.1 j (by omega) hjr
        · intro j hj _ hjc
          exact hfresh.2 j (by omega) hjc
      exact constrainsLoop_valid fuel _ (masksOk_compute _)
        (by rw [constrainsWrite_cells]; exact hvalid')

/-! ### `try_solve_by_constrains`: wrapper-level facts -/

/-- The reported count is exactly the number of indices pushed during the
call, and reverting that many pops restores the pre-call cells and stack. -/
lemma try_solve_by_constrains_spec (g : Grid) :
    ∃ pushed : List Nat,
      (try_solve_by_constrains g).2.2.solved_indices_stack =
        pushed ++ g.solved_indices_stack ∧
      (try_solve_by_constrains g).2.1 = pushed.length ∧
      (revert_last_resolved_indices (try_solve_by_constrains g).2.1
        (try_solve_by_constrains g).2.2).cells = g.cells ∧
      (revert_last_resolved_indices (try_solve_by_constrains g).2.1
        (try_solve_by_constrains g).2.2).solved_indices_stack =
        g.solved_indices_stack ∧
      (try_solve_by_constrains g).2.2.cells.length = g.cells.length := by
  obtain ⟨pushed, hstk, hrc, hrs, hlen⟩ := constrainsLoop_frame (g.cells.length + 1) g
  have hn : (try_solve_by_constrains g).2.1 = pushed.length := by
    show (constrainsLoop (g.cells.length + 1) g).2.solved_indices_stack.length
      - g.solved_indices_stack.length = pushed.length
    rw [hstk, List.length_append]
    omega
  refine ⟨pushed, hstk, hn, ?_, ?_, hlen⟩
  · rw [hn]
    exact hrc
  · rw [hn]
    exact hrs

lemma try_solve_by_constrains_true_fix (g : Grid)
    (h : (try_solve_by_constrains g).1 = true) :
    firstAction (try_solve_by_constrains g).2.2 = none :=
  constrainsLoop_true_fix (g.cells.length + 1) g h

lemma try_solve_by_constrains_false_char (g : Grid)
    (h : (try_solve_by_constrains g).1 = false) :
    ∃ i, i < (try_solve_by_constrains g).2.2.cells.length ∧
      (try_solve_by_constrains g).2.2.cells.getD i 0 = 0 ∧
      interpret_potential (potentialAt (try_solve_by_constrains g).2.2 i) =
        PotentialState.None :=
  constrainsLoop_false_char (g.cells.length + 1) g
    (by have := List.count_le_length 0 g.cells; omega) h

lemma try_solve_by_constrains_valid (g : Grid) (hm : MasksOk g)
    (hv : ValidCells g.cells) :
    MasksOk (try_solve_by_constrains g).2.2 ∧
      ValidCells (try_solve_by_constrains g).2.2.cells :=
  constrainsLoop_valid (g.cells.length + 1) g hm hv

/-! ### The minimum-candidate scan and the recursive search -/

/-- Invariant of the minimum-candidate fold: any accumulator with a nonzero
potential records an empty cell, its candidate set, and its `Several` count. -/
def GoodAcc (g : Grid) (acc : Nat × Nat × Nat) : Prop :=
  acc.2.1 ≠ 0 →
    acc.1 < g.cells.length ∧ g.cells.getD acc.1 0 = 0 ∧
    acc.2.1 = potentialAt g acc.1 ∧
    interpret_potential acc.2.1 = PotentialState.Several acc.2.2

lemma tryFindStep_good (g : Grid) (acc : Nat × Nat × Nat) (index : Nat)
    (hidx : index < g.cells.length) (h : GoodAcc g acc) :
    GoodAcc g (tryFindStep g acc index) := by
  unfold tryFindStep
  by_cases hc : g.cells.getD index 0 > 0
  · rw [if_pos hc]
    exact h
  · rw [if_neg hc]
    rcases hm : interpret_potential (potentialAt g index) with cnt | w
    · show GoodAcc g (if cnt < acc.2.2 then (index, potentialAt g index, cnt) else acc)
      by_cases hlt : cnt < acc.2.2
      · rw [if_pos hlt]
        intro _
        refine ⟨hidx, ?_, rfl, hm⟩
        show g.cells.getD index 0 = 0
        omega
      · rw [if_neg hlt]
        exact h
    · exact h
    · exact h

lemma foldl_tryFindStep_good (g : Grid) :
    ∀ (l : List Nat) (acc : Nat × Nat × Nat), (∀ x ∈ l, x < g.cells.length) →
      GoodAcc g acc → GoodAcc g (l.foldl (tryFindStep g) acc)
  | [], _, _, h => h
  | x :: rest, acc, hl, h => by
    rw [List.foldl_cons]
    exact foldl_tryFindStep_good g rest _
      (fun y hy => hl y (List.mem_cons_of_mem x hy))
      (tryFindStep_good g acc x (hl x (List.mem_cons_self x rest)) h)

lemma try_find_some (g : Grid) (i pot cnt : Nat)
    (h : try_find_cell_with_low_potential g = some (i, pot, cnt)) :
    i < g.cells.length ∧ g.cells.getD i 0 = 0 ∧ pot = potentialAt g i ∧
      interpret_potential pot = PotentialState.Several cnt := by
  unfold try_find_cell_with_low_potential at h
  set r := (List.range g.cells.length).foldl (tryFindStep g)
    (18446744073709551615, 0, 255) with hrdef
  by_cases h0 : r.2.1 = 0
  · rw [if_pos h0] at h
    exact absurd h (by simp)
  · rw [if_neg h0] at h
    have hg : GoodAcc g r := by
      rw [hrdef]
      exact foldl_tryFindStep_good g (List.range g.cells.length) _
        (fun x hx => List.mem_range.1 hx) (fun hc => absurd rfl hc)
    obtain ⟨h1, h2, h3, h4⟩ := hg h0
    have hre : r = (i, pot, cnt) := Option.some.inj h
    rw [hre] at h1 h2 h3 h4
    exact ⟨h1, h2, h3, h4⟩

lemma any_unsolved_cell_false (g : Grid) (h : any_unsolved_cell g = false) :
    ∀ i, i < g.cells.length → g.cells.getD i 0 ≠ 0 := by
  intro i hi
  unfold any_unsolved_cell at h
  rw [List.any_eq_false] at h
  have hm := h (g.cells.getD i 0)
    (by rw [getD_eq_getElem_of_lt _ _ hi]; exact List.getElem_mem hi)
  simpa using hm

/-- Unfolding equation for one iteration of the trial loop, conditioned on
the propagation result. -/
lemma trialLoop_cons (recur : Grid → Bool × Grid) (i pot k : Nat)
    (rest : List Nat) (g : Grid) (ok : Bool) (n : Nat) (g2 : Grid)
    (hr : try_solve_by_constrains (compute_potentials
      { g with cells := g.cells.set i (get_potential_value_at pot k) }) = (ok, n, g2)) :
    trialLoop recur i pot (k :: rest) g =
      match (if ok then recur g2 else (false, g2)) with
      | (true, g3) => (true, g3)
      | (false, g3) => trialLoop recur i pot rest (compute_potentials
          { (revert_last_resolved_indices n g3) with
            cells := (revert_last_resolved_indices n g3).cells.set i 0 }) := by
  conv_lhs => unfold trialLoop
  rw [hr]

/-- A failed trial loop leaves the cells and the stack exactly as it found
them (each iteration reverts its own writes). -/
lemma trialLoop_restore (recur : Grid → Bool × Grid)
    (hrec : ∀ g', (recur g').1 = false →
      (recur g').2.cells = g'.cells ∧
      (recur g').2.solved_indices_stack = g'.solved_indices_stack) :
    ∀ (ks : List Nat) (i pot : Nat) (g : Grid), g.cells.getD i 0 = 0 →
      (trialLoop recur i pot ks g).1 = false →
      (trialLoop recur i pot ks g).2.cells = g.cells ∧
      (trialLoop recur i pot ks g).2.solved_indices_stack = g.solved_indices_stack
  | [], _, _, _, _, _ => ⟨rfl, rfl⟩
  | k :: rest, i, pot, g, h0, hf => by
    rcases hr : try_solve_by_constrains (compute_potentials
      { g with cells := g.cells.set i (get_potential_value_at pot k) })
      with ⟨ok, n, g2⟩
    have hcons := trialLoop_cons recur i pot k rest g ok n g2 hr
    rcases hb : (if ok then recur g2 else (false, g2)) with ⟨b3, g3⟩
    rw [hb] at hcons
    cases b3
    · -- the recursive call failed (or propagation failed): revert and continue
      rw [hcons] at hf ⊢
      have hg3 : g3.cells = g2.cells ∧
          g3.solved_indices_stack = g2.solved_indices_stack := by
        by_cases hok : ok = true
        · rw [if_pos hok] at hb
          have hre := hrec g2 (by rw [hb])
          rw [hb] at hre
          exact hre
        · rw [if_neg hok] at hb
          simp only [Prod.mk.injEq] at hb
          exact ⟨by rw [← hb.2], by rw [← hb.2]⟩
      obtain ⟨pushed, hstk, hnn, hrc, hrs, hlen⟩ :=
        try_solve_by_constrains_spec (compute_potentials
          { g with cells := g.cells.set i (get_potential_value_at pot k) })
      rw [hr] at hnn hrc hrs
      have hrc2 : (revert_last_resolved_indices n g2).cells =
          g.cells.set i (get_potential_value_at pot k) := hrc
      have hrs2 : (revert_last_resolved_indices n g2).solved_indices_stack =
          g.solved_indices_stack := hrs
      have hcg := revert_congr n g3 g2 hg3.1 hg3.2
      have hc4 : (revert_last_resolved_indices n g3).cells =
          g.cells.set i (get_potential_value_at pot k) := by
        rw [hcg.1, hrc2]
      have hs4 : (revert_last_resolved_indices n g3).solved_indices_stack =
          g.solved_indices_stack := by
        rw [hcg.2, hrs2]
      set g4 := compute_potentials
        { (revert_last_resolved_indices n g3) with
          cells := (revert_last_resolved_indices n g3).cells.set i 0 } with hg4
      have hc4' : g4.cells = g.cells := by
        show (revert_last_resolved_indices n g3).cells.set i 0 = g.cells
        rw [hc4, List.set_set, set_getD_zero_eq g.cells i h0]
      have hs4' : g4.solved_indices_stack = g.solved_indices_stack := by
        show (revert_last_resolved_indices n g3).solved_indices_stack =
          g.solved_indices_stack
        exact hs4
      have h04 : g4.cells.getD i 0 = 0 := by rw [hc4']; exact h0
      have hres := trialLoop_restore recur hrec rest i pot g4 h04 hf
      rw [hres.1, hres.2, hc4', hs4']
      exact ⟨rfl, rfl⟩
    · rw [hcons] at hf
      exact absurd hf (by simp)

/-- A failed recursive search leaves the cells and the stack unchanged. -/
lemma tsr_restore : ∀ (fuel : Nat) (g : Grid),
    (try_solve_recursive_fuel fuel g).1 = false →
    (try_solve_recursive_fuel fuel g).2.cells = g.cells ∧
    (try_solve_recursive_fuel fuel g).2.solved_indices_stack =
      g.solved_indices_stack
  | 0, _, _ => ⟨rfl, rfl⟩
  | fuel + 1, g, hf => by
    by_cases hu : any_unsolved_cell g = false
    · have heq : try_solve_recursive_fuel (fuel + 1) g = (true, g) := by
        conv_lhs => unfold try_solve_recursive_fuel
        rw [if_pos hu]
      rw [heq] at hf
      exact absurd hf (by simp)
    · have hne : try_solve_recursive_fuel (fuel + 1) g =
          match try_find_cell_with_low_potential g with
          | Option.none => (false, g)
          | Option.some (cell_index, potential, potential_count) =>
              trialLoop (try_solve_recursive_fuel fuel) cell_index potential
                (List.range potential_count) g := by
        conv_lhs => unfold try_solve_recursive_fuel
        rw [if_neg hu]
      rcases hfind : try_find_cell_with_low_potential g with _ | ⟨i, pot, cnt⟩
      · rw [hfind] at hne
        rw [hne]
        exact ⟨rfl, rfl⟩
      · rw [hfind] at hne
        rw [hne] at hf ⊢
        obtain ⟨_, h0, _, _⟩ := try_find_some g i pot cnt hfind
        exact trialLoop_restore (try_solve_recursive_fuel fuel)
          (fun g' => tsr_restore fuel g') (List.range cnt) i pot g h0 hf

/-- A successful trial loop yields a valid, complete cell buffer, provided
the captured potential is the current cell's candidate set and every tried
ordinal lies below the digit count. -/
lemma trialLoop_sound (recur : Grid → Bool × Grid)
    (hrecsound : ∀ g', MasksOk g' → ValidCells g'.cells → (recur g').1 = true →
      ValidCells (recur g').2.cells ∧ Complete (recur g').2.cells)
    (hrecrest : ∀ g', (recur g').1 = false →
      (recur g').2.cells = g'.cells ∧
      (recur g').2.solved_indices_stack = g'.solved_indices_stack) :
    ∀ (ks : List Nat) (i pot : Nat) (g : Grid), MasksOk g → ValidCells g.cells →
      g.cells.getD i 0 = 0 → i < 81 → pot = potentialAt g i →
      (∀ k ∈ ks, k < (digits pot).length) →
      (trialLoop recur i pot ks g).1 = true →
      ValidCells (trialLoop recur i pot ks g).2.cells ∧
        Complete (trialLoop recur i pot ks g).2.cells
  | [], _, _, _, _, _, _, _, _, _, ht => absurd ht (by simp [trialLoop])
  | k :: rest, i, pot, g, hmo, hval, h0, hi81, hpot, hks, ht => by
    have hklen : k < (digits pot).length := hks k (List.mem_cons_self k rest)
    have hvmem : get_potential_value_at pot k ∈ digits pot := by
      rw [get_potential_value_at_eq]
      exact digits_getD_mem pot k hklen
    obtain ⟨hv1, hv9, _⟩ := (mem_digits _ _).1 hvmem
    have htb : Nat.testBit pot (get_potential_value_at pot k) = true :=
      mem_digits_testBit _ _ hvmem
    have htb2 : Nat.testBit (potentialAt g i) (get_potential_value_at pot k) = true := by
      rw [← hpot]
      exact htb
    have hfresh := potential_fresh g i _ hmo hv1 htb2
    have hlen81 : g.cells.length = 81 := hval.1
    have hval1 : ValidCells (g.cells.set i (get_potential_value_at pot k)) := by
      apply validCells_set g.cells i _ hval hi81 hv1 hv9
      · intro j hj _ hjr
        exact hfresh.1 j (by omega) hjr
      · intro j hj _ hjc
        exact hfresh.2 j (by omega) hjc
    rcases hr : try_solve_by_constrains (compute_potentials
      { g with cells := g.cells.set i (get_potential_value_at pot k) })
      with ⟨ok, n, g2⟩
    have hcons := trialLoop_cons recur i pot k rest g ok n g2 hr
    have hvc : MasksOk g2 ∧ ValidCells g2.cells := by
      have hpv := try_solve_by_constrains_valid (compute_potentials
        { g with cells := g.cells.set i (get_potential_value_at pot k) })
        (masksOk_compute _) hval1
      rw [hr] at hpv
      exact hpv
    rcases hb : (if ok then recur g2 else (false, g2)) with ⟨b3, g3⟩
    rw [hb] at hcons
    cases b3
    · -- failed branch: revert, then the remaining candidates run from the
      -- restored entry state
      rw [hcons] at ht ⊢
      have hg3 : g3.cells = g2.cells ∧
          g3.solved_indices_stack = g2.solved_indices_stack := by
        by_cases hok : ok = true
        · rw [if_pos hok] at hb
          have hre := hrecrest g2 (by rw [hb])
          rw [hb] at hre
          exact hre
        · rw [if_neg hok] at hb
          simp only [Prod.mk.injEq] at hb
          exact ⟨by rw [← hb.2], by rw [← hb.2]⟩
      obtain ⟨pushed, hstk, hnn, hrc, hrs, hlen⟩ :=
        try_solve_by_constrains_spec (compute_potentials
          { g with cells := g.cells.set i (get_potential_value_at pot k) })
      rw [hr] at hnn hrc hrs
      have hrc2 : (revert_last_resolved_indices n g2).cells =
          g.cells.set i (get_potential_value_at pot k) := hrc
      have hrs2 : (revert_last_resolved_indices n g2).solved_indices_stack =
          g.solved_indices_stack := hrs
      have hcg := revert_congr n g3 g2 hg3.1 hg3.2
      set g4 := compute_potentials
        { (revert_last_resolved_indices n g3) with
          cells := (revert_last_resolved_indices n g3).cells.set i 0 } with hg4
      have hc4' : g4.cells = g.cells := by
        show (revert_last_resolved_indices n g3).cells.set i 0 = g.cells
        rw [hcg.1, hrc2, List.set_set, set_getD_zero_eq g.cells i h0]
      have hmo4 : MasksOk g4 := masksOk_compute _
      have hpot4 : pot = potentialAt g4 i := by
        rw [hpot]
        unfold potentialAt
        rw [hmo.1, hmo.2, hmo4.1, hmo4.2, hc4']
      have hval4 : ValidCells g4.cells := by
        rw [hc4']
        exact hval
      have h04 : g4.cells.getD i 0 = 0 := by
        rw [hc4']
        exact h0
      exact trialLoop_sound recur hrecsound hrecrest rest i pot g4 hmo4 hval4
        h04 hi81 hpot4 (fun k' hk' => hks k' (List.mem_cons_of_mem k hk')) ht
    · -- success: the recursion returned a valid complete grid
      rw [hcons]
      by_cases hok : ok = true
      · rw [if_pos hok] at hb
        have hsound := hrecsound g2 hvc.1 hvc.2 (by rw [hb])
        rw [hb] at hsound
        exact hsound
      · rw [if_neg hok] at hb
        simp only [Prod.mk.injEq] at hb
        exact absurd hb.1 (by simp)

/-- A successful recursive search yields a valid, complete cell buffer. -/
lemma tsr_sound : ∀ (fuel : Nat) (g : Grid), MasksOk g → ValidCells g.cells →
    (try_solve_recursive_fuel fuel g).1 = true →
    ValidCells (try_solve_recursive_fuel fuel g).2.cells ∧
      Complete (try_solve_recursive_fuel fuel g).2.cells
  | 0, _, _, _, ht => absurd ht (by simp [try_solve_recursive_fuel])
  | fuel + 1, g, hmo, hval, ht => by
    by_cases hu : any_unsolved_cell g = false
    · have heq : try_solve_recursive_fuel (fuel + 1) g = (true, g) := by
        conv_lhs => unfold try_solve_recursive_fuel
        rw [if_pos hu]
      rw [heq]
      refine ⟨hval, fun j hj => ?_⟩
      have hlen81 : g.cells.length = 81 := hval.1
      exact any_unsolved_cell_false g hu j (by omega)
    · have hne : try_solve_recursive_fuel (fuel + 1) g =
          match try_find_cell_with_low_potential g with
          | Option.none => (false, g)
          | Option.some (cell_index, potential, potential_count) =>
              trialLoop (try_solve_recursive_fuel fuel) cell_index potential
                (List.range potential_count) g := by
        conv_lhs => unfold try_solve_recursive_fuel
        rw [if_neg hu]
      rcases hfind : try_find_cell_with_low_potential g with _ | ⟨i, pot, cnt⟩
      · rw [hfind] at hne
        rw [hne] at ht
        exact absurd ht (by simp)
      · rw [hfind] at hne
        rw [hne] at ht ⊢
        obtain ⟨hilen, h0, hpot, hsev⟩ := try_find_some g i pot cnt hfind
        obtain ⟨hcnt, _⟩ := interpret_several pot cnt hsev
        have hlen81 : g.cells.length = 81 := hval.1
        exact trialLoop_sound (try_solve_recursive_fuel fuel)
          (fun g' => tsr_sound fuel g') (fun g' => tsr_restore fuel g')
          (List.range cnt) i pot g hmo hval h0 (by omega) hpot
          (fun k hk => by rw [← hcnt]; exact List.mem_range.1 hk) ht

/-! ### Valid complete grids: every row and column is a permutation of 1..9 -/

/-- The nine values of row `r`. -/
def rowVals (c : List Nat) (r : Nat) : List Nat :=
  (List.range 9).map (fun column => c.getD (index_of r column) 0)

/-- The nine values of column `column`. -/
def colVals (c : List Nat) (column : Nat) : List Nat :=
  (List.range 9).map (fun r => c.getD (index_of r column) 0)

lemma rowVals_perm (c : List Nat) (hv : ValidCells c) (hc : Complete c)
    (r : Nat) (hr : r < 9) : (rowVals c r).Perm (List.range' 1 9) := by
  have hlen : (rowVals c r).length = 9 := by simp [rowVals]
  have hget : ∀ (a : Nat) (ha : a < (rowVals c r).length),
      (rowVals c r)[a] = c.getD (r * 9 + a) 0 := by
    intro a ha
    simp [rowVals, index_of]
  have hnd : (rowVals c r).Nodup := by
    rw [List.Nodup]
    rw [List.pairwise_iff_getElem]
    intro a b ha hb hab
    rw [hget a ha, hget b hb]
    rw [hlen] at ha hb
    have hia : r * 9 + a < 81 := by omega
    have hib : r * 9 + b < 81 := by omega
    have hdi := hv.2.2 (r * 9 + a) hia (r * 9 + b) hib
      ⟨by omega, Or.inl (by omega)⟩
    exact hdi.resolve_left (hc (r * 9 + a) hia)
  have hsub : (rowVals c r) ⊆ List.range' 1 9 := by
    intro x hx
    rw [rowVals, List.mem_map] at hx
    obtain ⟨a, ha, hxa⟩ := hx
    have ha9 : a < 9 := List.mem_range.1 ha
    have hia : r * 9 + a < 81 := by omega
    have h0 := hc (r * 9 + a) hia
    have h9 := hv.2.1 (r * 9 + a) hia
    rw [List.mem_range'_1]
    unfold index_of at hxa
    omega
  have hsp : List.Subperm (rowVals c r) (List.range' 1 9) := hnd.subperm hsub
  exact hsp.perm_of_length_le (by rw [hlen]; simp)

lemma colVals_perm (c : List Nat) (hv : ValidCells c) (hc : Complete c)
    (co : Nat) (hco : co < 9) : (colVals c co).Perm (List.range' 1 9) := by
  have hlen : (colVals c co).length = 9 := by simp [colVals]
  have hget : ∀ (a : Nat) (ha : a < (colVals c co).length),
      (colVals c co)[a] = c.getD (a * 9 + co) 0 := by
    intro a ha
    simp [colVals, index_of]
  have hnd : (colVals c co).Nodup := by
    rw [List.Nodup]
    rw [List.pairwise_iff_getElem]
    intro a b ha hb hab
    rw [hget a ha, hget b hb]
    rw [hlen] at ha hb
    have hia : a * 9 + co < 81 := by omega
    have hib : b * 9 + co < 81 := by omega
    have hdi := hv.2.2 (a * 9 + co) hia (b * 9 + co) hib
      ⟨by omega, Or.inr (by omega)⟩
    exact hdi.resolve_left (hc (a * 9 + co) hia)
  have hsub : (colVals c co) ⊆ List.range' 1 9 := by
    intro x hx
    rw [colVals, List.mem_map] at hx
    obtain ⟨a, ha, hxa⟩ := hx
    have ha9 : a < 9 := List.mem_range.1 ha
    have hia : a * 9 + co < 81 := by omega
    have h0 := hc (a * 9 + co) hia
    have h9 := hv.2.1 (a * 9 + co) hia
    rw [List.mem_range'_1]
    unfold index_of at hxa
    omega
  have hsp : List.Subperm (colVals c co) (List.range' 1 9) := hnd.subperm hsub
  exact hsp.perm_of_length_le (by rw [hlen]; simp)

lemma count_range'_one (v : Nat) (h1 : 1 ≤ v) (h9 : v ≤ 9) :
    (List.range' 1 9).count v = 1 :=
  List.count_eq_one_of_mem (List.nodup_range' 1 9)
    (by rw [List.mem_range'_1]; omega)

lemma rowVals_count (c : List Nat) (hv : ValidCells c) (hc : Complete c)
    (r : Nat) (hr : r < 9) (v : Nat) (h1 : 1 ≤ v) (h9 : v ≤ 9) :
    (rowVals c r).count v = 1 := by
  rw [(rowVals_perm c hv hc r hr).count_eq]
  exact count_range'_one v h1 h9

lemma colVals_count (c : List Nat) (hv : ValidCells c) (hc : Complete c)
    (co : Nat) (hco : co < 9) (v : Nat) (h1 : 1 ≤ v) (h9 : v ≤ 9) :
    (colVals c co).count v = 1 := by
  rw [(colVals_perm c hv hc co hco).count_eq]
  exact count_range'_one v h1 h9

/-! ### Concrete inputs used by the claim theorems -/

/-- Scenario D of the specification: two equal digits in the same row. -/
def scenarioDSeeds : List (Nat × Nat × Nat) := [(5, 0, 0), (5, 0, 1)]

/-- A full 81-seed list writing the digit 5 into every cell.  `create`
accepts it, and the resulting grid is complete, so `solve` succeeds at once
while every row and column consists of nine 5s. -/
def allFivesSeeds : List (Nat × Nat × Nat) :=
  (List.range 81).map (fun i => (5, i / 9, i % 9))

/-- The grid produced by `create allFivesSeeds`. -/
def gAllFives : Grid :=
  { cells := List.replicate 81 5
    lines_state := List.replicate 9 0
    columns_state := List.replicate 9 0
    solved_indices_stack := [] }

/-- A seed list accepted by `create` on which the recursive search exhausts
all branches and returns `false`: row 0 keeps cells (0,0),(0,1),(0,2) empty
with row mask {7,8,9}; a 7 placed in each of columns 0,1,2 shrinks each of
the three candidate sets to {8,9}, so the three cells cannot take pairwise
distinct values.  Every other cell carries the filler value 10, which counts
as solved but clears no mask bit, and the initial propagation is already at
a fixed point (every empty cell classifies as `Several`). -/
def unsolvableSeeds : List (Nat × Nat × Nat) :=
  [(1, 0, 3), (2, 0, 4), (3, 0, 5), (4, 0, 6), (5, 0, 7), (6, 0, 8),
   (7, 1, 0), (7, 2, 1), (7, 3, 2)] ++
  ((List.range 81).filterMap (fun i =>
    if i / 9 = 0 then none
    else if i = 9 ∨ i = 19 ∨ i = 29 then none
    else some (10, i / 9, i % 9)))

/-- A complete valid grid (the cyclic Latin square `(r + c) % 9 + 1`) given
as 81 seeds. -/
def cyclicSeeds : List (Nat × Nat × Nat) :=
  (List.range 81).map (fun i => ((i / 9 + i % 9) % 9 + 1, i / 9, i % 9))

/-- The grid produced by `create cyclicSeeds`. -/
def gCyclic : Grid :=
  { cells := (List.range 81).map (fun i => (i / 9 + i % 9) % 9 + 1)
    lines_state := List.replicate 9 0
    columns_state := List.replicate 9 0
    solved_indices_stack := [] }

/-! ### The claims -/

/-- C1 (counterexample): the seed list writing 5 into all 81 cells is
accepted at construction, base propagation succeeds, the recursive search
returns `true` and `solve` returns normally — yet row 0 contains the digit 1
zero times, not exactly once. -/
theorem claim_C1_counterexample :
    (create allFivesSeeds).map (fun g =>
      ((try_solve_by_constrains (compute_potentials g)).1,
       (try_solve_recursive (try_solve_by_constrains (compute_potentials g)).2.2).1,
       (solve g).isSome,
       (rowVals
         (try_solve_recursive
           (try_solve_by_constrains (compute_potentials g)).2.2).2.cells 0).count 1))
      = some (true, true, true, 0) := by rfl

/-- C1 (amended): for every seed list accepted at construction **whose
resulting grid is valid** (values 0..9, no nonzero value repeated in a row
or column), if `solve` completes successfully — base propagation reports no
contradiction and the recursive search returns `true` — then every one of
the 81 cells holds a value in 1..9, every row contains each digit 1..9
exactly once, and every column contains each digit 1..9 exactly once. -/
theorem claim_C1 (seeds : List (Nat × Nat × Nat)) (g gp gf : Grid)
    (n : Nat) (b : Bool)
    (hc : create seeds = some g)
    (hv : ValidCells g.cells)
    (hprop : try_solve_by_constrains (compute_potentials g) = (true, n, gp))
    (hsearch : try_solve_recursive gp = (b, gf))
    (hb : b = true) :
    solve g = some gf ∧
    (∀ i, i < 81 → 1 ≤ gf.cells.getD i 0 ∧ gf.cells.getD i 0 ≤ 9) ∧
    (∀ r, r < 9 → ∀ v, 1 ≤ v → v ≤ 9 → (rowVals gf.cells r).count v = 1) ∧
    (∀ co, co < 9 → ∀ v, 1 ≤ v → v ≤ 9 → (colVals gf.cells co).count v = 1) := by
  subst hb
  have hmo1 : MasksOk (compute_potentials g) := masksOk_compute g
  have hv1 : ValidCells (compute_potentials g).cells := hv
  have hpv := try_solve_by_constrains_valid (compute_potentials g) hmo1 hv1
  rw [hprop] at hpv
  have hpv' : MasksOk gp ∧ ValidCells gp.cells := hpv
  have hs := tsr_sound (gp.cells.length + 1) gp hpv'.1 hpv'.2
    (by show (try_solve_recursive gp).1 = true; rw [hsearch])
  have hs' : ValidCells gf.cells ∧ Complete gf.cells := by
    rw [show try_solve_recursive_fuel (gp.cells.length + 1) gp
      = try_solve_recursive gp from rfl, hsearch] at hs
    exact hs
  refine ⟨?_, ?_, ?_, ?_⟩
  · show (if (try_solve_by_constrains (compute_potentials g)).1 = false then none
      else some (try_solve_recursive
        (try_solve_by_constrains (compute_potentials g)).2.2).2) = some gf
    rw [hprop]
    rw [if_neg (by simp)]
    show some (try_solve_recursive gp).2 = some gf
    rw [hsearch]
  · intro i hi
    have h0 := hs'.2 i hi
    have h9 := hs'.1.2.1 i hi
    omega
  · intro r hr v h1 h9
    exact rowVals_count gf.cells hs'.1 hs'.2 r hr v h1 h9
  · intro co hco v h1 h9
    exact colVals_count gf.cells hs'.1 hs'.2 co hco v h1 h9

/-- C1 (witness): the amended claim applied to the complete cyclic Latin
square; row 0 of the solved grid contains the digit 1 exactly once. -/
theorem claim_C1_witness :
    (rowVals (try_solve_recursive
      (try_solve_by_constrains (compute_potentials gCyclic)).2.2).2.cells 0).count 1
      = 1 := by
  have h := claim_C1 cyclicSeeds gCyclic
    (try_solve_by_constrains (compute_potentials gCyclic)).2.2
    (try_solve_recursive (try_solve_by_constrains (compute_potentials gCyclic)).2.2).2
    (try_solve_by_constrains (compute_potentials gCyclic)).2.1
    (try_solve_recursive (try_solve_by_constrains (compute_potentials gCyclic)).2.2).1
    rfl (by decide) rfl rfl rfl
  exact h.2.2.1 0 (by decide) 1 (by decide) (by decide)

/-- C2 (code evaluated at the failing input): on `unsolvableSeeds`, base
propagation succeeds, the recursive search invoked by `solve` returns
`false`, and yet `solve` returns normally (`some`) instead of surfacing a
hard failure — the boolean result of `try_solve_recursive` is discarded. -/
theorem claim_C2_code_divergence :
    (create unsolvableSeeds).map (fun g =>
      ((try_solve_by_constrains (compute_potentials g)).1,
       (try_solve_recursive (try_solve_by_constrains (compute_potentials g)).2.2).1,
       (solve g).isSome))
      = some (true, false, true) := by rfl

/-- C3 (counterexample): with the contradictory seeds (5,0,0),(5,0,1), the
base-constraints propagation finds no contradiction (clearing the same mask
bit twice is silent), so `solve` does not report the base-constraints
failure and instead proceeds into the recursive search. -/
theorem claim_C3_counterexample :
    (create scenarioDSeeds).map
      (fun g => (try_solve_by_constrains (compute_potentials g)).1) = some true := by
  rfl

/-- C3 (amended): for the seeds (5,0,0),(5,0,1), top-level propagation
succeeds, `solve` does not abort, and the recursive search is invoked. -/
theorem claim_C3 :
    (create scenarioDSeeds).map
      (fun g => ((try_solve_by_constrains (compute_potentials g)).1,
                 (solve g).isSome)) = some (true, true) := by
  rfl

/-- C4 (counterexample): the seed (0, (0,0)) has value 0, yet construction
produces a Grid rather than rejecting the input. -/
theorem claim_C4_counterexample : (create [(0, 0, 0)]).isSome = true := by rfl

lemma createCells_isSome :
    ∀ (values : List (Nat × Nat × Nat)) (cells : List Nat),
      (createCells values cells).isSome
        = values.all (fun v => decide (index_of v.2.1 v.2.2 < 81))
  | [], _ => rfl
  | (value, line, column) :: rest, cells => by
    unfold createCells
    by_cases h : index_of line column < 81
    · rw [if_pos h, createCells_isSome rest _]
      simp [h]
    · rw [if_neg h]
      simp [h]

/-- C4 (amended): construction performs no seed validation at all.  A Grid
is produced exactly when every seed's flat index `line * 9 + column` is in
bounds — the value (0 included) is written as-is; a seed whose flat index is
out of bounds aborts construction with an index panic, not a constructor
error. -/
theorem claim_C4 (values : List (Nat × Nat × Nat)) :
    (create values).isSome
      = values.all (fun v => decide (index_of v.2.1 v.2.2 < 81)) := by
  rw [← createCells_isSome values (List.replicate 81 0)]
  unfold create
  cases createCells values (List.replicate 81 0) <;> rfl

/-- C5: propagating and then reverting exactly the reported count restores
the 81-cell buffer to its pre-propagation contents, and masks subsequently
recomputed from the reverted buffer equal the masks recomputed from the
pre-propagation buffer. -/
theorem claim_C5 (g : Grid) :
    (revert_last_resolved_indices (try_solve_by_constrains g).2.1
      (try_solve_by_constrains g).2.2).cells = g.cells ∧
    (compute_potentials (revert_last_resolved_indices (try_solve_by_constrains g).2.1
      (try_solve_by_constrains g).2.2)).lines_state
      = (compute_potentials g).lines_state ∧
    (compute_potentials (revert_last_resolved_indices (try_solve_by_constrains g).2.1
      (try_solve_by_constrains g).2.2)).columns_state
      = (compute_potentials g).columns_state := by
  obtain ⟨pushed, _, _, hrc, _, _⟩ := try_solve_by_constrains_spec g
  refine ⟨hrc, ?_, ?_⟩
  · show (masksOf (revert_last_resolved_indices (try_solve_by_constrains g).2.1
      (try_solve_by_constrains g).2.2).cells).1 = (masksOf g.cells).1
    rw [hrc]
  · show (masksOf (revert_last_resolved_indices (try_solve_by_constrains g).2.1
      (try_solve_by_constrains g).2.2).cells).2 = (masksOf g.cells).2
    rw [hrc]

/-- C6: after every mask recomputation, for every filled cell with value `v`
at row `r`, column `c`: bit `v` of row mask `r` is 0 and bit `v` of column
mask `c` is 0; and bit 0 of every one of the 18 masks is 0. -/
theorem claim_C6 (g : Grid) :
    (∀ i, i < g.cells.length → 0 < g.cells.getD i 0 →
      Nat.testBit ((compute_potentials g).lines_state.getD (i / 9) 0)
        (g.cells.getD i 0) = false ∧
      Nat.testBit ((compute_potentials g).columns_state.getD (i % 9) 0)
        (g.cells.getD i 0) = false) ∧
    (∀ j, j < 9 →
      Nat.testBit ((compute_potentials g).lines_state.getD j 0) 0 = false ∧
      Nat.testBit ((compute_potentials g).columns_state.getD j 0) 0 = false) := by
  constructor
  · intro i hi hv
    exact masksOf_cleared g.cells i hi hv
  · intro j _
    exact masksOf_bit0 g.cells j

/-- C6 (witness): on the all-fives grid, bit 5 of the recomputed row mask 0
is clear. -/
theorem claim_C6_witness :
    Nat.testBit ((compute_potentials gAllFives).lines_state.getD 0 0) 5 = false :=
  ((claim_C6 gAllFives).1 0 (by decide) (by decide)).1

/-- C7: propagation returns whether a contradiction was found together with
the exact number of indices pushed onto the solved-by-propagation stack
during this call (dropping that many entries recovers the old stack); on a
`true` result the final state is a fixed point — a full scan finds every
empty cell `Several` — and on a `false` result a contradiction was found:
some empty cell of the final state has an empty candidate set. -/
theorem claim_C7 (g : Grid) :
    (try_solve_by_constrains g).2.2.solved_indices_stack.drop
        ((try_solve_by_constrains g).2.1) = g.solved_indices_stack ∧
    (try_solve_by_constrains g).2.2.solved_indices_stack.length
        = (try_solve_by_constrains g).2.1 + g.solved_indices_stack.length ∧
    ((try_solve_by_constrains g).1 = true →
      ∀ i, i < (try_solve_by_constrains g).2.2.cells.length →
        (try_solve_by_constrains g).2.2.cells.getD i 0 = 0 →
        ∃ c, interpret_potential (potentialAt (try_solve_by_constrains g).2.2 i)
          = PotentialState.Several c) ∧
    ((try_solve_by_constrains g).1 = false →
      ∃ i, i < (try_solve_by_constrains g).2.2.cells.length ∧
        (try_solve_by_constrains g).2.2.cells.getD i 0 = 0 ∧
        interpret_potential (potentialAt (try_solve_by_constrains g).2.2 i)
          = PotentialState.None) := by
  obtain ⟨pushed, hstk, hn, _, _, _⟩ := try_solve_by_constrains_spec g
  refine ⟨?_, ?_, ?_, try_solve_by_constrains_false_char g⟩
  · rw [hstk, hn, List.drop_left]
  · rw [hstk, hn, List.length_append]
  · intro ht i hi h0
    exact firstAction_none _ (try_solve_by_constrains_true_fix g ht) i hi h0

/-- C7 (witness): on the all-fives grid (already complete) propagation
pushes nothing, and dropping the reported count recovers the old stack. -/
theorem claim_C7_witness :
    (try_solve_by_constrains gAllFives).2.2.solved_indices_stack.drop
      ((try_solve_by_constrains gAllFives).2.1)
      = gAllFives.solved_indices_stack :=
  (claim_C7 gAllFives).1

/-- C8: for every 16-bit mask, the count carried by the `Several` case of
classification equals the number of set bits among bits 1..9, and ordinal
selection is strictly ascending below that popcount. -/
theorem claim_C8 (m : Nat) (hm : m < 65536) :
    (∀ c, interpret_potential m = PotentialState.Several c → c = popcount9 m) ∧
    (∀ k1 k2, k1 < k2 → k2 < popcount9 m →
      get_potential_value_at m k1 < get_potential_value_at m k2) := by
  constructor
  · intro c hc
    rw [popcount9_eq_length_digits]
    exact (interpret_several m c hc).1
  · intro k1 k2 h12 h2
    rw [get_potential_value_at_eq, get_potential_value_at_eq]
    rw [popcount9_eq_length_digits] at h2
    exact digits_getD_strict_mono m k1 k2 h12 h2

/-- C8 (witness): on the mask 678 = 0b1010100110 (bits 1,2,5,7,9), the
first two selected digits are strictly ascending. -/
theorem claim_C8_witness :
    get_potential_value_at 678 0 < get_potential_value_at 678 1 :=
  (claim_C8 678 (by decide)).2 0 1 (by decide) (by decide)

/-- C9: determinism — two runs of `solve` on grids constructed from the same
seed list produce identical final cell buffers. -/
theorem claim_C9 (seeds : List (Nat × Nat × Nat)) (g1 g2 : Grid)
    (h1 : create seeds = some g1) (h2 : create seeds = some g2) :
    (solve g1).map Grid.cells = (solve g2).map Grid.cells := by
  rw [h1] at h2
  rw [Option.some.inj h2]

/-- C9 (witness): applied to the all-fives seed list. -/
theorem claim_C9_witness :
    (solve gAllFives).map Grid.cells = (solve gAllFives).map Grid.cells :=
  claim_C9 allFivesSeeds gAllFives gAllFives rfl rfl

/-- C10: ordinal selection is total — for every 16-bit mask and every
ordinal at or above the popcount of bits 1..9, it returns 0 (a value outside
the digit range) rather than failing. -/
theorem claim_C10 (m : Nat) (hm : m < 65536) (k : Nat)
    (hk : popcount9 m ≤ k) : get_potential_value_at m k = 0 := by
  rw [get_potential_value_at_eq, List.getD_eq_getElem?_getD,
    List.getElem?_eq_none (by rw [← popcount9_eq_length_digits]; exact hk)]
  rfl

/-- C10 (witness): mask 678 has popcount 5 among bits 1..9, and ordinal 5
selects 0. -/
theorem claim_C10_witness : get_potential_value_at 678 5 = 0 :=
  claim_C10 678 (by decide) 5 (by decide)

end Grid
